import Mathlib

/-!
Verification of the MorphMan segmentation core (`morph/morphemizer.py` and
`morph/deps/hunspell/stemmer.py`) against its natural-language specification.

The Python source is shallowly embedded: pure functions become Lean functions,
the `lru_cache`-decorated method becomes explicit cache-state passing, external
collaborators (hunspell's `stem`, mecab, jieba) become function parameters, and
regular-expression calls are modelled by executable matchers that follow the
backtracking semantics of Python's `re` module for the concrete patterns used.
-/

namespace MorphMan

/-! ## Character classes and Python string operations

`str.lower` / `str.capitalize` are modelled on the character repertoire the
strategies are used with (ASCII Latin and Cyrillic, the dictionary-stemming
languages being Russian and Basque); other characters map to themselves, as in
Python for characters with no case. -/

/-- Python `str.lower` on a single character (ASCII Latin and Cyrillic). -/
def charLower (c : Char) : Char :=
  if 'A' ≤ c && c ≤ 'Z' then Char.ofNat (c.toNat + 32)
  else if 0x410 ≤ c.toNat && c.toNat ≤ 0x42F then Char.ofNat (c.toNat + 32)
  else if c.toNat = 0x401 then Char.ofNat 0x451
  else c

/-- Python `str.upper` on a single character (ASCII Latin and Cyrillic). -/
def charUpper (c : Char) : Char :=
  if 'a' ≤ c && c ≤ 'z' then Char.ofNat (c.toNat - 32)
  else if 0x430 ≤ c.toNat && c.toNat ≤ 0x44F then Char.ofNat (c.toNat - 32)
  else if c.toNat = 0x451 then Char.ofNat 0x401
  else c

/-- Python `str.lower` on a string. -/
def pyLower (s : String) : String :=
  ⟨s.data.map charLower⟩

/-- Python `str.capitalize`: first character uppercased, the rest lowercased. -/
def pyCapitalize (s : String) : String :=
  match s.data with
  | [] => ⟨[]⟩
  | c :: rest => ⟨charUpper c :: rest.map charLower⟩

/-- The `\w` character class of Python `re` in Unicode mode, on the repertoire
relevant to this program: ASCII alphanumerics, underscore, and Cyrillic. -/
def isWordChar (c : Char) : Bool :=
  c.isAlphanum || c = '_' || (0x400 ≤ c.toNat && c.toNat ≤ 0x4FF)

/-- The `\s` character class of Python `re` (ASCII whitespace repertoire). -/
def isPySpace (c : Char) : Bool :=
  c = ' ' || c = '\t' || c = '\n' || c = '\r' || c.toNat = 0xB || c.toNat = 0xC

/-- A character matched by `[^\s\d]`: neither whitespace nor a digit. -/
def isTokenChar (c : Char) : Bool :=
  !isPySpace c && !c.isDigit

/-! ## The Morpheme data model -/

/-- Modelled from the spec: the `Morpheme` record (`morph/morphemes.py` is not
under `src/`). Six string fields; the constructor argument order is
`(norm, base, inflected, read, pos, subPos)`, which is the order under which
section 4.3 of the spec reads the strategies' constructor calls
(`Morpheme(stem, stem, word, stem, ...)` yields `norm = base = read = stem`,
`inflected = word`). -/
structure Morpheme where
  norm : String
  base : String
  inflected : String
  read : String
  pos : String
  subPos : String
deriving DecidableEq, Repr

/-! ## Regex models

`re.findall(r"\w+", e)` returns the maximal runs of word characters, in
left-to-right order. -/

/-- One step of the right fold building maximal `isWordChar` runs: the first
component is the run currently being built (if the previous character scanned
was a word character), the second the completed runs to the right. -/
def wordRunStep (c : Char) : Option (List Char) × List (List Char) →
    Option (List Char) × List (List Char)
  | (cur, done) =>
    if isWordChar c then (some (c :: cur.getD []), done)
    else (none, match cur with | some r => r :: done | none => done)

/-- `re.findall(r"\w+", e, re.UNICODE)`: maximal runs of word characters. -/
def wordRuns (cs : List Char) : List (List Char) :=
  match cs.foldr wordRunStep (none, []) with
  | (some r, done) => r :: done
  | (none, done) => done

/-! `re.findall(r"\b[^\s\d]+\b", e)` needs the full backtracking semantics:
a greedy run of token characters is shortened until its end sits on a word
boundary. Positions index the character list; `\b` holds at position `i` iff
exactly one of the characters around `i` is a word character. -/

/-- Is the character at index `i` a word character (out of range counts as
not-a-word-character, as at the ends of the string)? -/
def wordAtIdx (cs : List Char) (i : Nat) : Bool :=
  match cs.get? i with
  | some c => isWordChar c
  | none => false

/-- The `\b` assertion of Python `re` at position `i` (between index `i - 1`
and index `i`). -/
def boundaryAt (cs : List Char) (i : Nat) : Bool :=
  (if i = 0 then false else wordAtIdx cs (i - 1)) != wordAtIdx cs i

/-- Backtracking search for the match end: the largest `j` with
`p < j ≤ p + k` such that `\b` holds at `j`, where `k` is the length of the
greedy `[^\s\d]+` run starting at `p`. -/
def findMatchEnd (cs : List Char) (p : Nat) : Nat → Option Nat
  | 0 => none
  | k + 1 => if boundaryAt cs (p + k + 1) then some (p + k + 1) else findMatchEnd cs p k

/-- The scan loop of `re.findall(r"\b[^\s\d]+\b", e)`: try a match at each
position; on success emit the matched substring and resume at the match end,
otherwise advance one position. `fuel` bounds the number of scan steps. -/
def spaceScan (cs : List Char) : Nat → Nat → List (List Char)
  | 0, _ => []
  | fuel + 1, p =>
    if p ≥ cs.length then []
    else if boundaryAt cs p then
      let k := ((cs.drop p).takeWhile isTokenChar).length
      match findMatchEnd cs p k with
      | some j => ((cs.drop p).take (j - p)) :: spaceScan cs fuel j
      | none => spaceScan cs fuel (p + 1)
    else spaceScan cs fuel (p + 1)

/-- `re.findall(r"\b[^\s\d]+\b", e, re.UNICODE)`. -/
def spaceFindall (cs : List Char) : List (List Char) :=
  spaceScan cs (cs.length + 1) 0

/-- Modelled from the spec: the CJK ideographic block set bound to the
character class of `zhon.hanzi.characters` (the vendored `deps/zhon` table is
not under `src/`); the logographic (CJK ideographic) Unicode blocks. -/
def isCjkChar (c : Char) : Bool :=
  c.toNat = 0x3007 ||
  (0x4E00 ≤ c.toNat && c.toNat ≤ 0x9FFF) ||
  (0x3400 ≤ c.toNat && c.toNat ≤ 0x4DBF) ||
  (0xF900 ≤ c.toNat && c.toNat ≤ 0xFAFF) ||
  (0x20000 ≤ c.toNat && c.toNat ≤ 0x2A6DF) ||
  (0x2A700 ≤ c.toNat && c.toNat ≤ 0x2B73F) ||
  (0x2B740 ≤ c.toNat && c.toNat ≤ 0x2B81F) ||
  (0x2F800 ≤ c.toNat && c.toNat ≤ 0x2FA1F)

/-! ## The hunspell fallback stemmer (`deps/hunspell/stemmer.py`)

The external hunspell engine appears as the parameter
`stem : String → List String` (candidate stems, already UTF-8 decoded). -/

/-- `stemmer.stemmer(hspell, word)`: lowercase-then-capitalize-then-self
fallback stemming. Returns the `(word, stem)` pair of the source. -/
def stemmer (stem : String → List String) (word : String) : String × String :=
  let word_l := pyLower word
  match stem word_l with
  | s :: _ => (word_l, s)
  | [] =>
    let word_c := pyCapitalize word
    match stem word_c with
    | s :: _ => (word_c, s)
    | [] => (word_l, word_l)

/-! ## Strategy implementations (`morph/morphemizer.py`) -/

/-- `SpaceMorphemizer._getMorphemesFromExpr`: tokens of `\b[^\s\d]+\b`,
lowercased, one Morpheme per token with all four form fields equal. -/
def SpaceMorphemizer.segment (expression : String) : List Morpheme :=
  (spaceFindall expression.data).map (fun w =>
    let word : String := ⟨w.map charLower⟩
    ⟨word, word, word, word, "UNKNOWN", "UNKNOWN"⟩)

/-- `CjkCharMorphemizer._getMorphemesFromExpr`: one Morpheme per character of
the expression matched by the CJK character class, in order. -/
def CjkCharMorphemizer.segment (expression : String) : List Morpheme :=
  (expression.data.filter isCjkChar).map (fun c =>
    let character : String := ⟨[c]⟩
    ⟨character, character, character, character, "CJK_CHAR", "UNKNOWN"⟩)

/-- `space_char_regex.search(expression)`: does the expression contain a
plain-space character? -/
def containsSpaceChar (expression : String) : Bool :=
  expression.data.any (fun c => c = ' ')

/-- `space_char_regex.sub('', expression)`: every plain-space character
removed. -/
def removeSpaceChars (expression : String) : String :=
  ⟨expression.data.filter (fun c => !(c = ' '))⟩

/-- The sanitization step of `MecabMorphemizer._getMorphemesFromExpr`: spaces
are stripped only when the search finds one (the `if` of the source). -/
def mecabSanitize (expression : String) : String :=
  if containsSpaceChar expression then removeSpaceChars expression else expression

/-- `MecabMorphemizer._getMorphemesFromExpr`; the external analyzer
`getMorphemesMecab` (in `mecab_wrapper.py`, not under `src/`) is a parameter
receiving the sanitized expression. -/
def MecabMorphemizer.segment (getMorphemesMecab : String → List Morpheme)
    (expression : String) : List Morpheme :=
  getMorphemesMecab (mecabSanitize expression)

/-- `MecabMorphemizer.getDescription`: the identity probe is a fallible
external call (`getMecabIdentity`), its failure is swallowed and replaced by
the `UNAVAILABLE` sentinel. -/
def MecabMorphemizer.getDescription {ε : Type} (probe : Except ε String) : String :=
  let identity := match probe with
    | .ok s => s
    | .error _ => "UNAVAILABLE"
  "Japanese " ++ identity

/-- `JiebaMorphemizer._getMorphemesFromExpr`: the expression filtered to CJK
characters is handed to the external `posseg.cut`, a parameter returning
`(word, flag)` pairs. -/
def JiebaMorphemizer.segment (possegCut : String → List (String × String))
    (expression : String) : List Morpheme :=
  (possegCut ⟨expression.data.filter isCjkChar⟩).map (fun m =>
    ⟨m.1, m.1, m.1, m.1, m.2, "UNKNOWN"⟩)

/-- `RussianMorphemizer.getMorphemesFromExpr` (and identically
`BasqueMorphemizer.getMorphemesFromExpr`): `\w+` tokens run through the
hunspell fallback stemmer; `Morpheme(stem, stem, word, stem, ...)`. This
override does not pass through the base-class `lru_cache` accessor. -/
def RussianMorphemizer.getMorphemesFromExpr (stem : String → List String)
    (e : String) : List Morpheme :=
  (wordRuns e.data).map (fun w =>
    let p := stemmer stem ⟨w⟩
    ⟨p.2, p.2, p.1, p.2, "UNKNOWN", "UNKNOWN"⟩)

/-- `BasqueMorphemizer.getMorphemesFromExpr`: same body as the Russian one,
bound to the Basque dictionary (the hunspell engine is the parameter). -/
def BasqueMorphemizer.getMorphemesFromExpr (stem : String → List String)
    (e : String) : List Morpheme :=
  (wordRuns e.data).map (fun w =>
    let p := stemmer stem ⟨w⟩
    ⟨p.2, p.2, p.1, p.2, "UNKNOWN", "UNKNOWN"⟩)

/-! ## Registry -/

/-- The six statically registered strategy classes. -/
inductive MorphemizerId where
  | SpaceMorphemizer
  | RussianMorphemizer
  | BasqueMorphemizer
  | MecabMorphemizer
  | JiebaMorphemizer
  | CjkCharMorphemizer
deriving DecidableEq, Repr

/-- `Morphemizer.getName`: the class name of the instance. -/
def getName : MorphemizerId → String
  | .SpaceMorphemizer => "SpaceMorphemizer"
  | .RussianMorphemizer => "RussianMorphemizer"
  | .BasqueMorphemizer => "BasqueMorphemizer"
  | .MecabMorphemizer => "MecabMorphemizer"
  | .JiebaMorphemizer => "JiebaMorphemizer"
  | .CjkCharMorphemizer => "CjkCharMorphemizer"

/-- `getAllMorphemizers()`: the static list built on first access, in the
construction order of the source. -/
def getAllMorphemizers : List MorphemizerId :=
  [.SpaceMorphemizer, .RussianMorphemizer, .BasqueMorphemizer,
   .MecabMorphemizer, .JiebaMorphemizer, .CjkCharMorphemizer]

/-- The `morphemizers_by_name` table: one entry per strategy, keyed by its
name, in registration order. -/
def morphemizersByName : List (String × MorphemizerId) :=
  getAllMorphemizers.map (fun m => (getName m, m))

/-- First-match association-list lookup (the dict lookup, the keys being
distinct). -/
def assocFind (name : String) : List (String × MorphemizerId) → Option MorphemizerId
  | [] => none
  | (k, m) :: rest => if k = name then some m else assocFind name rest

/-- `getMorphemizerByName(name)`: `morphemizers_by_name.get(name, None)`. -/
def getMorphemizerByName (name : String) : Option MorphemizerId :=
  assocFind name morphemizersByName

/-! ## The memoizing cache

`functools.lru_cache(maxsize=131072)` decorates the base-class method
`Morphemizer.getMorphemesFromExpr`, so one cache is shared by every instance
that inherits the accessor, keyed by the `(self, expression)` argument pair.
The cache state is a most-recently-used-first association list; a hit moves
the entry to the front, a miss computes, inserts at the front and evicts the
least recently used entry beyond capacity. -/

/-- The cache capacity of the source: `maxsize=131072`. -/
def CACHE_MAXSIZE : Nat := 131072

/-- Lookup in the recency list. -/
def lruLookup {κ α : Type} [DecidableEq κ] (k : κ) : List (κ × α) → Option α
  | [] => none
  | (k1, v) :: rest => if k1 = k then some v else lruLookup k rest

/-- Remove the entry of key `k` (first occurrence). -/
def lruRemove {κ α : Type} [DecidableEq κ] (k : κ) : List (κ × α) → List (κ × α)
  | [] => []
  | (k1, v) :: rest => if k1 = k then rest else (k1, v) :: lruRemove k rest

/-- Modelled from the spec: one `lru_cache`-wrapped call (the decorator is
Python standard library, outside `src/`; section 4.8 of the spec fixes its
contract). Hit: return the stored sequence, moving the entry to the front.
Miss: compute `f k`, store at the front, evict beyond `cap` entries. -/
def cachedCall {κ α : Type} [DecidableEq κ] (cap : Nat) (f : κ → α)
    (cache : List (κ × α)) (k : κ) : α × List (κ × α) :=
  match lruLookup k cache with
  | some v => (v, (k, v) :: lruRemove k cache)
  | none => let v := f k; (v, ((k, v) :: cache).take cap)

/-- The key of the shared cache: the `(self, expression)` pair. -/
abbrev CacheKey := MorphemizerId × String

/-- The dispatch performed inside the cached base-class accessor:
`self._getMorphemesFromExpr(expression)`. `Space` and `CjkChar` override the
worker; `Mecab` and `Jieba` override it delegating to their external analyzer
(the first two parameters); `Basque` and `Russian` inherit the base worker,
which returns the empty list (their own public override never reaches the
cached accessor). -/
def baseWorker (getMorphemesMecab : String → List Morpheme)
    (possegCut : String → List (String × String)) : CacheKey → List Morpheme
  | (.SpaceMorphemizer, e) => SpaceMorphemizer.segment e
  | (.CjkCharMorphemizer, e) => CjkCharMorphemizer.segment e
  | (.MecabMorphemizer, e) => MecabMorphemizer.segment getMorphemesMecab e
  | (.JiebaMorphemizer, e) => JiebaMorphemizer.segment possegCut e
  | (.RussianMorphemizer, _) => []
  | (.BasqueMorphemizer, _) => []

/-- The shared cache state. -/
abbrev SharedCache := List (CacheKey × List Morpheme)

/-- `Morphemizer.getMorphemesFromExpr`, the `lru_cache`-decorated accessor on
the shared cache. -/
def Morphemizer.getMorphemesFromExpr (getMorphemesMecab : String → List Morpheme)
    (possegCut : String → List (String × String)) (cache : SharedCache)
    (k : CacheKey) : List Morpheme × SharedCache :=
  cachedCall CACHE_MAXSIZE (baseWorker getMorphemesMecab possegCut) cache k

/-- The public segmentation entry point of a strategy instance: `Basque` and
`Russian` override it without the cache (their hunspell engine is the `stem`
parameter); every other strategy uses the inherited cached accessor. -/
def publicGetMorphemes (stem : String → List String)
    (getMorphemesMecab : String → List Morpheme)
    (possegCut : String → List (String × String)) (i : MorphemizerId)
    (cache : SharedCache) (e : String) : List Morpheme × SharedCache :=
  match i with
  | .BasqueMorphemizer => (BasqueMorphemizer.getMorphemesFromExpr stem e, cache)
  | .RussianMorphemizer => (RussianMorphemizer.getMorphemesFromExpr stem e, cache)
  | _ => Morphemizer.getMorphemesFromExpr getMorphemesMecab possegCut cache (i, e)

/-- Well-formed cache: every stored sequence is what the worker computes for
its key. -/
def CacheWF {κ α : Type} (f : κ → α) (cache : List (κ × α)) : Prop :=
  ∀ p ∈ cache, p.2 = f p.1

/-- Segmentation with the memoizing cache disabled: `Basque` and `Russian`
run their overrides; every other strategy runs the worker directly. -/
def uncachedGetMorphemes (stem : String → List String)
    (getMorphemesMecab : String → List Morpheme)
    (possegCut : String → List (String × String)) (i : MorphemizerId)
    (e : String) : List Morpheme :=
  match i with
  | .BasqueMorphemizer => BasqueMorphemizer.getMorphemesFromExpr stem e
  | .RussianMorphemizer => RussianMorphemizer.getMorphemesFromExpr stem e
  | _ => baseWorker getMorphemesMecab possegCut (i, e)

/-- The three-branch contract of the fallback stemmer on one token `w`, in the
order of the source: lowercase hit, else capitalize hit, else the lowercased
token is its own stem; the produced Morpheme has `norm = base = read = stem`,
`inflected` the token form of the branch that matched, and the unknown
sentinel for both tags. -/
def fallbackBranchSpec (stem : String → List String) (w : List Char)
    (m : Morpheme) : Prop :=
  (∃ s rest, stem (pyLower (String.mk w)) = s :: rest ∧
      m = ⟨s, s, pyLower (String.mk w), s, "UNKNOWN", "UNKNOWN"⟩) ∨
  (stem (pyLower (String.mk w)) = [] ∧
    ∃ s rest, stem (pyCapitalize (String.mk w)) = s :: rest ∧
      m = ⟨s, s, pyCapitalize (String.mk w), s, "UNKNOWN", "UNKNOWN"⟩) ∨
  (stem (pyLower (String.mk w)) = [] ∧ stem (pyCapitalize (String.mk w)) = [] ∧
      m = ⟨pyLower (String.mk w), pyLower (String.mk w), pyLower (String.mk w),
           pyLower (String.mk w), "UNKNOWN", "UNKNOWN"⟩)

/-! ## Cache lemmas -/

theorem lruLookup_mem {κ α : Type} [DecidableEq κ] (k : κ) (v : α)
    (c : List (κ × α)) (h : lruLookup k c = some v) : (k, v) ∈ c := by
  induction c with
  | nil => simp [lruLookup] at h
  | cons q rest ih =>
    obtain ⟨k1, v1⟩ := q
    by_cases hk : k1 = k
    · subst hk
      simp [lruLookup] at h
      subst h
      exact List.mem_cons_self _ _
    · simp [lruLookup, hk] at h
      exact List.mem_cons_of_mem _ (ih h)

theorem lruRemove_subset {κ α : Type} [DecidableEq κ] (k : κ) (p : κ × α)
    (c : List (κ × α)) (hp : p ∈ lruRemove k c) : p ∈ c := by
  induction c with
  | nil => simp [lruRemove] at hp
  | cons q rest ih =>
    obtain ⟨k1, v1⟩ := q
    by_cases hk : k1 = k
    · simp [lruRemove, hk] at hp
      exact List.mem_cons_of_mem _ hp
    · simp [lruRemove, hk] at hp
      rcases hp with h | h
      · simp [h]
      · exact List.mem_cons_of_mem _ (ih h)

theorem lruRemove_length {κ α : Type} [DecidableEq κ] (k : κ) (v : α)
    (c : List (κ × α)) (h : lruLookup k c = some v) :
    (lruRemove k c).length + 1 = c.length := by
  induction c with
  | nil => simp [lruLookup] at h
  | cons q rest ih =>
    obtain ⟨k1, v1⟩ := q
    by_cases hk : k1 = k
    · simp [lruRemove, hk]
    · simp [lruLookup, hk] at h
      simp [lruRemove, hk, ih h]

theorem cachedCall_fst {κ α : Type} [DecidableEq κ] (cap : Nat) (f : κ → α)
    (c : List (κ × α)) (k : κ) (hwf : CacheWF f c) :
    (cachedCall cap f c k).1 = f k := by
  rcases h : lruLookup k c with _ | v
  · simp [cachedCall, h]
  · have hv := hwf (k, v) (lruLookup_mem k v c h)
    simp [cachedCall, h]
    exact hv

theorem cachedCall_wf {κ α : Type} [DecidableEq κ] (cap : Nat) (f : κ → α)
    (c : List (κ × α)) (k : κ) (hwf : CacheWF f c) :
    CacheWF f (cachedCall cap f c k).2 := by
  intro p hp
  rcases h : lruLookup k c with _ | v
  · simp [cachedCall, h] at hp
    have hp' : p ∈ (k, f k) :: c := List.take_subset _ _ hp
    rcases List.mem_cons.mp hp' with heq | hmem
    · subst heq; rfl
    · exact hwf _ hmem
  · simp [cachedCall, h] at hp
    rcases hp with heq | hmem
    · subst heq
      exact hwf (k, v) (lruLookup_mem k v c h)
    · exact hwf _ (lruRemove_subset k p c hmem)

theorem cachedCall_lookup_self {κ α : Type} [DecidableEq κ] (cap : Nat)
    (f : κ → α) (c : List (κ × α)) (k : κ) (hcap : 0 < cap) :
    lruLookup k (cachedCall cap f c k).2 = some (cachedCall cap f c k).1 := by
  rcases h : lruLookup k c with _ | v
  · obtain ⟨m, rfl⟩ : ∃ m, cap = m + 1 := ⟨cap - 1, by omega⟩
    simp [cachedCall, h, List.take_succ_cons, lruLookup]
  · simp [cachedCall, h, lruLookup]

theorem cachedCall_second {κ α : Type} [DecidableEq κ] (cap : Nat)
    (f g : κ → α) (c : List (κ × α)) (k : κ) (hcap : 0 < cap) :
    (cachedCall cap g (cachedCall cap f c k).2 k).1 = (cachedCall cap f c k).1 := by
  have h := cachedCall_lookup_self cap f c k hcap
  set p := cachedCall cap f c k with hp
  simp [cachedCall, h]

theorem cachedCall_length {κ α : Type} [DecidableEq κ] (cap : Nat) (f : κ → α)
    (c : List (κ × α)) (k : κ) (hlen : c.length ≤ cap) :
    (cachedCall cap f c k).2.length ≤ cap := by
  rcases h : lruLookup k c with _ | v
  · simp [cachedCall, h, List.length_take]
  · have hrm := lruRemove_length k v c h
    simp [cachedCall, h]
    omega

/-! ## Registry lemmas -/

theorem assocFind_eq_none (name : String) (l : List (String × MorphemizerId)) :
    assocFind name l = none ↔ ∀ p ∈ l, p.1 ≠ name := by
  induction l with
  | nil => simp [assocFind]
  | cons q rest ih =>
    obtain ⟨k1, m1⟩ := q
    by_cases hk : k1 = name
    · simp [assocFind, hk]
    · simp [assocFind, hk, ih]

theorem assocFind_of_mem (name : String) (m : MorphemizerId)
    (l : List (String × MorphemizerId)) (hnd : (l.map Prod.fst).Nodup)
    (hm : (name, m) ∈ l) : assocFind name l = some m := by
  induction l with
  | nil => cases hm
  | cons q rest ih =>
    obtain ⟨k1, m1⟩ := q
    simp only [List.map_cons, List.nodup_cons] at hnd
    rcases List.mem_cons.mp hm with heq | hmem
    · cases heq
      simp [assocFind]
    · have hk1 : k1 ≠ name := by
        intro hcontr
        subst hcontr
        exact hnd.1 (List.mem_map_of_mem Prod.fst hmem)
      simp [assocFind, hk1]
      exact ih hnd.2 hmem

/-! ## Claim theorems -/

/-- C6: for every name string, `getMorphemizerByName` returns `none` exactly
when no strategy is registered under that name, and returns the registered
strategy when one is; being total into `Option`, it never raises. -/
theorem registry_lookup_spec (name : String) :
    (getMorphemizerByName name = none ↔
      ∀ m ∈ getAllMorphemizers, getName m ≠ name) ∧
    (∀ m ∈ getAllMorphemizers, getName m = name →
      getMorphemizerByName name = some m) := by
  constructor
  · rw [getMorphemizerByName, assocFind_eq_none]
    constructor
    · intro h m hm hname
      exact h (getName m, m) (List.mem_map_of_mem _ hm) hname
    · intro h p hp
      obtain ⟨m, hm, rfl⟩ := List.mem_map.mp hp
      exact h m hm
  · intro m hm hname
    subst hname
    exact assocFind_of_mem _ _ _ (by decide) (List.mem_map_of_mem _ hm)

/-- C6 witness: the unregistered name returns `none`; a registered one returns
its strategy. -/
theorem registry_lookup_spec_witness :
    getMorphemizerByName "nonexistent" = none ∧
    getMorphemizerByName "MecabMorphemizer" = some MorphemizerId.MecabMorphemizer :=
  ⟨(registry_lookup_spec "nonexistent").1.mpr (by decide),
   (registry_lookup_spec "MecabMorphemizer").2 MorphemizerId.MecabMorphemizer
     (by decide) (by decide)⟩

/-- C10: the six statically registered strategies have pairwise distinct
names, and looking any of them up by its own name returns that strategy. -/
theorem registry_roundtrip :
    getAllMorphemizers.length = 6 ∧
    (getAllMorphemizers.map getName).Nodup ∧
    ∀ m ∈ getAllMorphemizers, getMorphemizerByName (getName m) = some m := by
  decide

/-- C10 witness: the round trip at one concrete strategy. -/
theorem registry_roundtrip_witness :
    getMorphemizerByName (getName MorphemizerId.JiebaMorphemizer) =
      some MorphemizerId.JiebaMorphemizer :=
  registry_roundtrip.2.2 MorphemizerId.JiebaMorphemizer (by decide)

/-- C5: the external-tool strategy's `getDescription` never raises: it is a
total function of the probe outcome, returning the identity string on success
and substituting the fixed `UNAVAILABLE` sentinel when the probe fails. -/
theorem mecab_description_total :
    (∀ s : String,
      MecabMorphemizer.getDescription (Except.ok s : Except Unit String) =
        "Japanese " ++ s) ∧
    (∀ (ε : Type) (err : ε),
      MecabMorphemizer.getDescription (Except.error err : Except ε String) =
        "Japanese UNAVAILABLE") :=
  ⟨fun _ => rfl, fun _ _ => rfl⟩

/-- C5 witness: a failing probe still yields the sentinel description. -/
theorem mecab_description_total_witness :
    MecabMorphemizer.getDescription (Except.error () : Except Unit String) =
      "Japanese UNAVAILABLE" :=
  mecab_description_total.2 Unit ()

/-- C8: the external-tool strategy hands the external analyzer exactly the
input with every plain-space character removed; in particular the delegated
string contains no plain space. The source's conditional substitution is
equivalent to unconditional removal. -/
theorem mecab_strips_spaces (getMorphemesMecab : String → List Morpheme)
    (e : String) :
    MecabMorphemizer.segment getMorphemesMecab e =
      getMorphemesMecab (mecabSanitize e) ∧
    (mecabSanitize e).data = e.data.filter (fun c => !(c = ' ')) ∧
    ∀ c ∈ (mecabSanitize e).data, c ≠ ' ' := by
  have hfil : (mecabSanitize e).data = e.data.filter (fun c => !(c = ' ')) := by
    by_cases h : containsSpaceChar e
    · simp [mecabSanitize, h, removeSpaceChars]
    · simp [mecabSanitize, h]
      simp [containsSpaceChar] at h
      refine (List.filter_eq_self.mpr (fun a ha => ?_)).symm
      simp only [Bool.not_eq_true', decide_eq_false_iff_not]
      rintro rfl
      exact h ha
  refine ⟨rfl, hfil, ?_⟩
  intro c hc
  rw [hfil] at hc
  have := List.of_mem_filter hc
  simpa using this

/-- C8 witness: the sanitization at a concrete expression. -/
theorem mecab_strips_spaces_witness :
    MecabMorphemizer.segment (fun _ => []) "a b c" =
      (fun _ => ([] : List Morpheme)) (mecabSanitize "a b c") ∧
    (mecabSanitize "a b c").data = "a b c".data.filter (fun c => !(c = ' ')) ∧
    ∀ c ∈ (mecabSanitize "a b c").data, c ≠ ' ' :=
  mecab_strips_spaces (fun _ => []) "a b c"

/-- C1: each `\w+` token of the expression yields exactly one Morpheme, in
order, obeying the three-branch fallback: lowercase-stem hit first, else
capitalize-stem hit, else the lowercased token is its own stem; the Morpheme
has `norm = base = read = stem`, `inflected` the token form of the matched
branch, and the unknown sentinel for `pos` and `subPos`. -/
theorem russian_fallback_branches (stem : String → List String) (e : String) :
    List.Forall₂ (fallbackBranchSpec stem) (wordRuns e.data)
      (RussianMorphemizer.getMorphemesFromExpr stem e) := by
  rw [RussianMorphemizer.getMorphemesFromExpr, List.forall₂_map_right_iff,
    List.forall₂_same]
  intro w _
  unfold fallbackBranchSpec
  rcases h1 : stem (pyLower (String.mk w)) with _ | ⟨s, rest⟩
  · rcases h2 : stem (pyCapitalize (String.mk w)) with _ | ⟨s, rest⟩
    · exact Or.inr (Or.inr ⟨rfl, rfl, by simp [stemmer, h1, h2]⟩)
    · exact Or.inr (Or.inl ⟨rfl, s, rest, rfl, by simp [stemmer, h1, h2]⟩)
  · exact Or.inl ⟨s, rest, rfl, by simp [stemmer, h1]⟩

/-- C1 witness: the fallback contract evaluated on a concrete stemmer and
expression, where the first token is found by the lowercase query and the
second falls through both queries. -/
theorem russian_fallback_branches_witness :
    List.Forall₂
      (fallbackBranchSpec (fun w => if w = "xy" then ["st"] else []))
      (wordRuns "Xy qz".data)
      (RussianMorphemizer.getMorphemesFromExpr
        (fun w => if w = "xy" then ["st"] else []) "Xy qz") :=
  russian_fallback_branches (fun w => if w = "xy" then ["st"] else []) "Xy qz"

/-- C2 counterexample: on the code, `segment("The Quick fox2")` returns two
morphemes, not three — between `x` and `2` both characters are word
characters, so the trailing `\b` of the token pattern cannot match and `fox`
is not extracted. -/
theorem space_example_not_three :
    (SpaceMorphemizer.segment "The Quick fox2").length ≠ 3 := by
  decide

/-- C2 (amended): `segment("The Quick fox2")` returns exactly two morphemes
`the` and `quick` (a token whose run is cut short by an adjacent digit has no
trailing word boundary and is dropped); in general each `\b[^\s\d]+\b` match
is lowercased and yields one Morpheme with all four form fields equal to the
lowercased token and the unknown sentinel for both tags. -/
theorem space_tokens_lowercased :
    (SpaceMorphemizer.segment "The Quick fox2" =
      [⟨"the", "the", "the", "the", "UNKNOWN", "UNKNOWN"⟩,
       ⟨"quick", "quick", "quick", "quick", "UNKNOWN", "UNKNOWN"⟩]) ∧
    ∀ e : String, List.Forall₂
      (fun w m => m = ⟨⟨w.map charLower⟩, ⟨w.map charLower⟩, ⟨w.map charLower⟩,
        ⟨w.map charLower⟩, "UNKNOWN", "UNKNOWN"⟩)
      (spaceFindall e.data) (SpaceMorphemizer.segment e) := by
  constructor
  · decide
  · intro e
    rw [SpaceMorphemizer.segment, List.forall₂_map_right_iff, List.forall₂_same]
    intro w _
    rfl

/-- C2 witness: the per-token contract evaluated at a concrete expression. -/
theorem space_tokens_lowercased_witness :
    List.Forall₂
      (fun w m => m = (⟨⟨w.map charLower⟩, ⟨w.map charLower⟩, ⟨w.map charLower⟩,
        ⟨w.map charLower⟩, "UNKNOWN", "UNKNOWN"⟩ : Morpheme))
      (spaceFindall "Ab cd".data) (SpaceMorphemizer.segment "Ab cd") :=
  space_tokens_lowercased.2 "Ab cd"

/-- C7: the character-class strategy emits one Morpheme per CJK codepoint of
the expression, in order, with all four form fields equal to that character,
`pos` the CJK tag and `subPos` the unknown sentinel; every other character is
dropped, and `segment("你好, world!")` yields exactly the two morphemes. -/
theorem cjk_segment_spec (e : String) :
    ((CjkCharMorphemizer.segment e).map Morpheme.inflected =
      (e.data.filter isCjkChar).map (fun c => String.mk [c])) ∧
    (∀ m ∈ CjkCharMorphemizer.segment e,
      m.norm = m.inflected ∧ m.base = m.inflected ∧ m.read = m.inflected ∧
      m.pos = "CJK_CHAR" ∧ m.subPos = "UNKNOWN" ∧
      ∃ c, isCjkChar c = true ∧ m.inflected = String.mk [c]) ∧
    CjkCharMorphemizer.segment "你好, world!" =
      [⟨"你", "你", "你", "你", "CJK_CHAR", "UNKNOWN"⟩,
       ⟨"好", "好", "好", "好", "CJK_CHAR", "UNKNOWN"⟩] := by
  refine ⟨?_, ?_, by decide⟩
  · rw [CjkCharMorphemizer.segment, List.map_map]
    rfl
  · intro m hm
    rw [CjkCharMorphemizer.segment] at hm
    obtain ⟨c, hc, rfl⟩ := List.mem_map.mp hm
    exact ⟨rfl, rfl, rfl, rfl, rfl, c, List.of_mem_filter hc, rfl⟩

/-- C7 witness: the field contract applied to one morpheme of the concrete
example. -/
theorem cjk_segment_spec_witness :
    (⟨"你", "你", "你", "你", "CJK_CHAR", "UNKNOWN"⟩ : Morpheme) ∈
      CjkCharMorphemizer.segment "你好, world!" ∧
    ((⟨"你", "你", "你", "你", "CJK_CHAR", "UNKNOWN"⟩ : Morpheme).norm =
        (⟨"你", "你", "你", "你", "CJK_CHAR", "UNKNOWN"⟩ : Morpheme).inflected ∧
      (⟨"你", "你", "你", "你", "CJK_CHAR", "UNKNOWN"⟩ : Morpheme).base =
        (⟨"你", "你", "你", "你", "CJK_CHAR", "UNKNOWN"⟩ : Morpheme).inflected ∧
      (⟨"你", "你", "你", "你", "CJK_CHAR", "UNKNOWN"⟩ : Morpheme).read =
        (⟨"你", "你", "你", "你", "CJK_CHAR", "UNKNOWN"⟩ : Morpheme).inflected ∧
      (⟨"你", "你", "你", "你", "CJK_CHAR", "UNKNOWN"⟩ : Morpheme).pos = "CJK_CHAR" ∧
      (⟨"你", "你", "你", "你", "CJK_CHAR", "UNKNOWN"⟩ : Morpheme).subPos = "UNKNOWN" ∧
      ∃ c, isCjkChar c = true ∧
        (⟨"你", "你", "你", "你", "CJK_CHAR", "UNKNOWN"⟩ : Morpheme).inflected =
          String.mk [c]) :=
  ⟨by decide,
   (cjk_segment_spec "你好, world!").2.1
     ⟨"你", "你", "你", "你", "CJK_CHAR", "UNKNOWN"⟩ (by decide)⟩

/-- C3 counterexample: the claim fails for the Basque strategy, whose
`getMorphemesFromExpr` override bypasses the base-class cache. The expression
`"x"` is segmented once with a stemmer answering `["a"]`; after the external
stemmer's responses change to `["b"]`, the second call for the already-seen
expression returns a different sequence — it was recomputed, not served from
a cache. -/
theorem basque_recompute_counterexample :
    (publicGetMorphemes (fun _ => ["b"]) (fun _ => []) (fun _ => [])
        MorphemizerId.BasqueMorphemizer
        (publicGetMorphemes (fun _ => ["a"]) (fun _ => []) (fun _ => [])
          MorphemizerId.BasqueMorphemizer [] "x").2 "x").1 ≠
      (publicGetMorphemes (fun _ => ["a"]) (fun _ => []) (fun _ => [])
        MorphemizerId.BasqueMorphemizer [] "x").1 := by
  decide

/-- C3 (amended): for every strategy whose segmentation entry point is the
inherited cached accessor — all but the Basque and Russian dictionary-stemming
strategies — a later call with the same (strategy, expression) pair is served
from the cache: it returns the previously computed sequence even if every
external analyzer's responses changed in between. -/
theorem cache_hit_analyzer_independent
    (stem1 stem2 : String → List String)
    (gm1 gm2 : String → List Morpheme)
    (pc1 pc2 : String → List (String × String))
    (i : MorphemizerId) (c : SharedCache) (e : String)
    (h1 : i ≠ MorphemizerId.BasqueMorphemizer)
    (h2 : i ≠ MorphemizerId.RussianMorphemizer) :
    (publicGetMorphemes stem2 gm2 pc2 i
        (publicGetMorphemes stem1 gm1 pc1 i c e).2 e).1 =
      (publicGetMorphemes stem1 gm1 pc1 i c e).1 := by
  cases i
  case BasqueMorphemizer => exact absurd rfl h1
  case RussianMorphemizer => exact absurd rfl h2
  all_goals
    exact cachedCall_second CACHE_MAXSIZE _ _ c _ (by decide)

/-- C3 witness: the cache-hit insensitivity at a concrete strategy and
expression, with the external analyzers mutated between the calls. -/
theorem cache_hit_analyzer_independent_witness :
    MorphemizerId.MecabMorphemizer ≠ MorphemizerId.BasqueMorphemizer ∧
    MorphemizerId.MecabMorphemizer ≠ MorphemizerId.RussianMorphemizer ∧
    (publicGetMorphemes (fun _ => []) (fun s => [⟨s, s, s, s, "B", "B"⟩])
        (fun _ => []) MorphemizerId.MecabMorphemizer
        (publicGetMorphemes (fun _ => []) (fun s => [⟨s, s, s, s, "A", "A"⟩])
          (fun _ => []) MorphemizerId.MecabMorphemizer [] "ab").2 "ab").1 =
      (publicGetMorphemes (fun _ => []) (fun s => [⟨s, s, s, s, "A", "A"⟩])
        (fun _ => []) MorphemizerId.MecabMorphemizer [] "ab").1 :=
  ⟨by decide, by decide,
   cache_hit_analyzer_independent (fun _ => []) (fun _ => [])
     (fun s => [⟨s, s, s, s, "A", "A"⟩]) (fun s => [⟨s, s, s, s, "B", "B"⟩])
     (fun _ => []) (fun _ => []) MorphemizerId.MecabMorphemizer [] "ab"
     (by decide) (by decide)⟩

/-- C4: segmentation is idempotent and the cache is observably transparent:
from any well-formed cache, the public entry point of every strategy returns
exactly what the cache-disabled computation returns, and a second call with
the same (strategy, expression) pair returns the same sequence as the
first. -/
theorem segmentation_idempotent_cache_transparent
    (stem : String → List String) (gm : String → List Morpheme)
    (pc : String → List (String × String)) (i : MorphemizerId)
    (c : SharedCache) (e : String) (hwf : CacheWF (baseWorker gm pc) c) :
    (publicGetMorphemes stem gm pc i c e).1 =
      uncachedGetMorphemes stem gm pc i e ∧
    (publicGetMorphemes stem gm pc i
        (publicGetMorphemes stem gm pc i c e).2 e).1 =
      (publicGetMorphemes stem gm pc i c e).1 := by
  cases i
  case BasqueMorphemizer => exact ⟨rfl, rfl⟩
  case RussianMorphemizer => exact ⟨rfl, rfl⟩
  all_goals
    exact ⟨cachedCall_fst CACHE_MAXSIZE _ c _ hwf,
           cachedCall_second CACHE_MAXSIZE _ _ c _ (by decide)⟩

/-- C4 witness: idempotence and cache transparency at a concrete strategy,
expression and empty initial cache. -/
theorem segmentation_idempotent_cache_transparent_witness :
    CacheWF (baseWorker (fun _ => []) (fun _ => [])) [] ∧
    ((publicGetMorphemes (fun _ => []) (fun _ => []) (fun _ => [])
          MorphemizerId.SpaceMorphemizer [] "Ab cd").1 =
        uncachedGetMorphemes (fun _ => []) (fun _ => []) (fun _ => [])
          MorphemizerId.SpaceMorphemizer "Ab cd" ∧
      (publicGetMorphemes (fun _ => []) (fun _ => []) (fun _ => [])
          MorphemizerId.SpaceMorphemizer
          (publicGetMorphemes (fun _ => []) (fun _ => []) (fun _ => [])
            MorphemizerId.SpaceMorphemizer [] "Ab cd").2 "Ab cd").1 =
        (publicGetMorphemes (fun _ => []) (fun _ => []) (fun _ => [])
          MorphemizerId.SpaceMorphemizer [] "Ab cd").1) :=
  ⟨fun p hp => absurd hp (List.not_mem_nil p),
   segmentation_idempotent_cache_transparent (fun _ => []) (fun _ => [])
     (fun _ => []) MorphemizerId.SpaceMorphemizer [] "Ab cd"
     (fun p hp => absurd hp (List.not_mem_nil p))⟩

/-- C9: the single cache shared by every strategy inheriting the base-class
accessor is keyed by the (strategy instance, expression) pair: from any
well-formed shared cache, the cached accessor returns the worker's sequence
for exactly the queried key (so entries of distinct strategies never serve
each other), preserves well-formedness across instances, and the 131,072-entry
capacity bounds the total number of entries across all inheriting strategies
combined. -/
theorem shared_cache_spec (gm : String → List Morpheme)
    (pc : String → List (String × String)) (c : SharedCache) (k : CacheKey)
    (hwf : CacheWF (baseWorker gm pc) c) (hlen : c.length ≤ CACHE_MAXSIZE) :
    (Morphemizer.getMorphemesFromExpr gm pc c k).1 = baseWorker gm pc k ∧
    CacheWF (baseWorker gm pc) (Morphemizer.getMorphemesFromExpr gm pc c k).2 ∧
    (Morphemizer.getMorphemesFromExpr gm pc c k).2.length ≤ CACHE_MAXSIZE :=
  ⟨cachedCall_fst CACHE_MAXSIZE _ c k hwf,
   cachedCall_wf CACHE_MAXSIZE _ c k hwf,
   cachedCall_length CACHE_MAXSIZE _ c k hlen⟩

/-- C9 witness: the shared-cache contract at a concrete key and a cache
already holding an entry of a different strategy for the same expression. -/
theorem shared_cache_spec_witness :
    CacheWF (baseWorker (fun _ => []) (fun _ => []))
      [((MorphemizerId.MecabMorphemizer, "ab"), [])] ∧
    [((MorphemizerId.MecabMorphemizer, "ab"),
        ([] : List Morpheme))].length ≤ CACHE_MAXSIZE ∧
    ((Morphemizer.getMorphemesFromExpr (fun _ => []) (fun _ => [])
        [((MorphemizerId.MecabMorphemizer, "ab"), [])]
        (MorphemizerId.SpaceMorphemizer, "ab")).1 =
      baseWorker (fun _ => []) (fun _ => [])
        (MorphemizerId.SpaceMorphemizer, "ab") ∧
    CacheWF (baseWorker (fun _ => []) (fun _ => []))
      (Morphemizer.getMorphemesFromExpr (fun _ => []) (fun _ => [])
        [((MorphemizerId.MecabMorphemizer, "ab"), [])]
        (MorphemizerId.SpaceMorphemizer, "ab")).2 ∧
    (Morphemizer.getMorphemesFromExpr (fun _ => []) (fun _ => [])
        [((MorphemizerId.MecabMorphemizer, "ab"), [])]
        (MorphemizerId.SpaceMorphemizer, "ab")).2.length ≤ CACHE_MAXSIZE) :=
  ⟨by intro p hp; simp at hp; simp [hp, baseWorker, MecabMorphemizer.segment],
   by decide,
   shared_cache_spec (fun _ => []) (fun _ => [])
     [((MorphemizerId.MecabMorphemizer, "ab"), [])]
     (MorphemizerId.SpaceMorphemizer, "ab")
     (by intro p hp; simp at hp; simp [hp, baseWorker, MecabMorphemizer.segment])
     (by decide)⟩

end MorphMan
